import Mathlib

/-!
Shallow embedding of the cascaded nonlinear quadrotor controller
(`controller.py`) over the real numbers, together with theorems checking
the natural-language specification against it.

Python float values are modelled as real numbers.  Division follows
Lean's convention `x / 0 = 0`; wherever a claim hinges on a zero
denominator this is pointed out explicitly (the Python code produces
NaN/inf there).  Python lists are Lean lists; `numpy` negative indexing
is modelled by `pyGet`, and `np.argmin` over `np.abs(times - t)` by
`argminAbs` (first index attaining the minimum, as numpy documents).
-/

/-- Module-level constant `DRONE_MASS_KG = 0.5` from the source. -/
noncomputable def DRONE_MASS_KG : ℝ := 0.5

/-- Module-level constant `GRAVITY = -9.81` from the source. -/
noncomputable def GRAVITY : ℝ := -9.81

/-- Module-level constant `MAX_THRUST = 10.0` (N) from the source. -/
noncomputable def MAX_THRUST : ℝ := 10.0

/-- Module-level constant `MAX_TORQUE = 1.0` (N.m) from the source. -/
noncomputable def MAX_TORQUE : ℝ := 1.0

/-- A 3-component vector (numpy 3-array) of reals. -/
@[ext] structure Vec3 where
  x : ℝ
  y : ℝ
  z : ℝ

/-- A 2-component vector (numpy 2-array) of reals. -/
@[ext] structure Vec2 where
  x : ℝ
  y : ℝ

noncomputable instance : Add Vec3 := ⟨fun a b => ⟨a.x + b.x, a.y + b.y, a.z + b.z⟩⟩

noncomputable instance : Sub Vec3 := ⟨fun a b => ⟨a.x - b.x, a.y - b.y, a.z - b.z⟩⟩

noncomputable instance : Mul Vec3 := ⟨fun a b => ⟨a.x * b.x, a.y * b.y, a.z * b.z⟩⟩

instance : Zero Vec3 := ⟨⟨0, 0, 0⟩⟩

noncomputable instance : Add Vec2 := ⟨fun a b => ⟨a.x + b.x, a.y + b.y⟩⟩

noncomputable instance : Sub Vec2 := ⟨fun a b => ⟨a.x - b.x, a.y - b.y⟩⟩

instance : Zero Vec2 := ⟨⟨0, 0⟩⟩

/-- numpy `vector * scalar` (elementwise). -/
noncomputable def Vec3.scale (v : Vec3) (s : ℝ) : Vec3 := ⟨v.x * s, v.y * s, v.z * s⟩

/-- numpy `vector / scalar` (elementwise). -/
noncomputable def Vec3.divScalar (v : Vec3) (s : ℝ) : Vec3 := ⟨v.x / s, v.y / s, v.z / s⟩

/-- numpy `scalar * 2-vector`. -/
noncomputable def smul2 (s : ℝ) (v : Vec2) : Vec2 := ⟨s * v.x, s * v.y⟩

/-- `np.linalg.norm` of a 3-vector: the Euclidean norm. -/
noncomputable def norm3 (v : Vec3) : ℝ := Real.sqrt (v.x ^ 2 + v.y ^ 2 + v.z ^ 2)

/-- `np.clip(x, lo, hi)` on scalars: `min (max x lo) hi`. -/
noncomputable def clip (x lo hi : ℝ) : ℝ := min (max x lo) hi

/-- Module-level constant `MOI = np.array([0.005, 0.005, 0.01])` from the source. -/
noncomputable def MOI : Vec3 := ⟨0.005, 0.005, 0.01⟩

/-- Python list indexing `l[i]` with an integer index: a negative index
wraps around from the end (`l[-1]` is the last element), as in
`position_trajectory[ind_min - 1]` when `ind_min = 0`.  Out-of-range
reads return the default `d` (never exercised by the claims). -/
def pyGet {α : Type} (l : List α) (d : α) (i : ℤ) : α :=
  if i < 0 then l.getD (l.length + i).toNat d else l.getD i.toNat d

/-- `np.argmin(np.abs(np.array(ts) - ct))`: the first index of `ts`
minimising the absolute difference to `ct` (numpy returns the first
occurrence of the minimum). -/
noncomputable def argminAbs : List ℝ → ℝ → ℕ
  | [], _ => 0
  | [_], _ => 0
  | t :: rest, ct =>
      if |rest.getD (argminAbs rest ct) 0 - ct| < |t - ct| then argminAbs rest ct + 1
      else 0

/-- The gain configuration of `NonlinearController.__init__`, with the
constructor's default values. -/
structure NonlinearController where
  Kp_lateral_pos : ℝ := 6
  Kd_lateral_pos : ℝ := 4
  Kp_alt : ℝ := 4.0
  Kd_alt : ℝ := 1.5
  Kp_roll : ℝ := 8
  Kp_pitch : ℝ := 8
  Kp_yaw : ℝ := 4.5
  Kp_p : ℝ := 20
  Kp_q : ℝ := 20
  Kp_r : ℝ := 5

/-- A controller built with all constructor defaults. -/
noncomputable def defaultCtrl : NonlinearController := {}

/-- The segment-endpoint selection performed by the branches of
`trajectory_control`: `(position0, position1, time0, time1, yaw_cmd)`. -/
structure Seg where
  position0 : Vec3
  position1 : Vec3
  time0 : ℝ
  time1 : ℝ
  yaw_cmd : ℝ

/-- The branch structure of `trajectory_control`: picks the two segment
endpoints, the two segment times and the commanded yaw exactly as the
source's `if current_time < time_ref / else` does (including Python's
negative indexing for `ind_min - 1` and the degenerate hold with
`time0 = 0.0, time1 = 1.0` at the last sample). -/
noncomputable def trajSelect (position_trajectory : List Vec3)
    (yaw_trajectory time_trajectory : List ℝ) (current_time : ℝ) : Seg :=
  let ind_min : ℤ := (argminAbs time_trajectory current_time : ℤ)
  let time_ref := pyGet time_trajectory 0 ind_min
  if current_time < time_ref then
    { position0 := pyGet position_trajectory 0 (ind_min - 1)
      position1 := pyGet position_trajectory 0 ind_min
      time0 := pyGet time_trajectory 0 (ind_min - 1)
      time1 := pyGet time_trajectory 0 ind_min
      yaw_cmd := pyGet yaw_trajectory 0 (ind_min - 1) }
  else if ind_min ≥ (position_trajectory.length : ℤ) - 1 then
    { position0 := pyGet position_trajectory 0 ind_min
      position1 := pyGet position_trajectory 0 ind_min
      time0 := 0.0
      time1 := 1.0
      yaw_cmd := pyGet yaw_trajectory 0 ind_min }
  else
    { position0 := pyGet position_trajectory 0 ind_min
      position1 := pyGet position_trajectory 0 (ind_min + 1)
      time0 := pyGet time_trajectory 0 ind_min
      time1 := pyGet time_trajectory 0 (ind_min + 1)
      yaw_cmd := pyGet yaw_trajectory 0 ind_min }

/-- `NonlinearController.trajectory_control`: returns
`(position_cmd, velocity_cmd, yaw_cmd)` by linear interpolation over the
segment selected by `trajSelect`. -/
noncomputable def trajectory_control (position_trajectory : List Vec3)
    (yaw_trajectory time_trajectory : List ℝ) (current_time : ℝ) :
    Vec3 × Vec3 × ℝ :=
  let s := trajSelect position_trajectory yaw_trajectory time_trajectory current_time
  (((s.position1 - s.position0).scale (current_time - s.time0)).divScalar
      (s.time1 - s.time0) + s.position0,
   (s.position1 - s.position0).divScalar (s.time1 - s.time0),
   s.yaw_cmd)

/-- `NonlinearController.lateral_position_control`: pure PD law on 2D
position and velocity error plus feedforward. -/
noncomputable def lateral_position_control (c : NonlinearController)
    (local_position_cmd local_velocity_cmd local_position local_velocity : Vec2)
    (acceleration_ff : Vec2) : Vec2 :=
  let lateral_pos_error := local_position_cmd - local_position
  let p_term := smul2 c.Kp_lateral_pos lateral_pos_error
  let lateral_pos_dot_error := local_velocity_cmd - local_velocity
  let d_term := smul2 c.Kd_lateral_pos lateral_pos_dot_error
  p_term + d_term + acceleration_ff

/-- `NonlinearController.altitude_control`: PD acceleration command,
divided by `b_z = cos(roll) * cos(pitch)`, scaled by the mass and clamped
into `[0, MAX_THRUST]`. -/
noncomputable def altitude_control (c : NonlinearController)
    (altitude_cmd vertical_velocity_cmd altitude vertical_velocity : ℝ)
    (attitude : Vec3) (acceleration_ff : ℝ) : ℝ :=
  let alt_error := altitude_cmd - altitude
  let p_term := c.Kp_alt * alt_error
  let alt_dot_error := vertical_velocity_cmd - vertical_velocity
  let d_term := c.Kd_alt * alt_dot_error
  let acc_cmd := p_term + d_term + acceleration_ff
  let b_z := Real.cos attitude.x * Real.cos attitude.y
  let thrust := DRONE_MASS_KG * acc_cmd / b_z
  if thrust > MAX_THRUST then MAX_THRUST
  else if thrust < 0.0 then 0.0
  else thrust

/-- `NonlinearController.roll_pitch_controller`.  The rotation matrix
comes from the external `frame_utils.euler2RM` (GeometryOps collaborator,
not part of this repository), so it is taken as a function argument;
`rot_mat i j` is the source's `rot_mat[i, j]`. -/
noncomputable def roll_pitch_controller (c : NonlinearController)
    (euler2RM : ℝ → ℝ → ℝ → (Fin 3 → Fin 3 → ℝ))
    (acceleration_cmd : Vec2) (attitude : Vec3) (thrust_cmd : ℝ) : Vec2 :=
  if thrust_cmd > 0 then
    let cc := -1 * thrust_cmd / DRONE_MASS_KG
    let b_x_c_target := clip (acceleration_cmd.x / cc) (-1) 1
    let b_y_c_target := clip (acceleration_cmd.y / cc) (-1) 1
    let rot_mat := euler2RM attitude.x attitude.y attitude.z
    let b_x := rot_mat 0 2
    let b_x_err := b_x_c_target - b_x
    let b_x_p_term := c.Kp_roll * b_x_err
    let b_y := rot_mat 1 2
    let b_y_err := b_y_c_target - b_y
    let b_y_p_term := c.Kp_pitch * b_y_err
    let b_x_cmd_dot := b_x_p_term
    let b_y_cmd_dot := b_y_p_term
    let p_c := rot_mat 1 0 / rot_mat 2 2 * b_x_cmd_dot +
      -rot_mat 0 0 / rot_mat 2 2 * b_y_cmd_dot
    let q_c := rot_mat 1 1 / rot_mat 2 2 * b_x_cmd_dot +
      -rot_mat 0 1 / rot_mat 2 2 * b_y_cmd_dot
    ⟨p_c, q_c⟩
  else
    ⟨0, 0⟩

/-- `NonlinearController.body_rate_control`: elementwise
`MOI * (Kp_rate * rate_err)`, rescaled to Euclidean norm `MAX_TORQUE`
when that norm exceeds `MAX_TORQUE`. -/
noncomputable def body_rate_control (c : NonlinearController)
    (body_rate_cmd body_rate : Vec3) : Vec3 :=
  let rate_err := body_rate_cmd - body_rate
  let Kp_rate : Vec3 := ⟨c.Kp_p, c.Kp_q, c.Kp_r⟩
  let m_c := MOI * (Kp_rate * rate_err)
  let m_c_value := norm3 m_c
  if m_c_value > MAX_TORQUE then (m_c.scale MAX_TORQUE).divScalar m_c_value
  else m_c

/-- `NonlinearController.yaw_control`: single conditional ±2π adjustment
of the yaw error, P gain, then `np.clip` into `[0, 2π]`. -/
noncomputable def yaw_control (c : NonlinearController) (yaw_cmd yaw : ℝ) : ℝ :=
  let yaw_err := yaw_cmd - yaw
  let yaw_err2 :=
    if yaw_err > Real.pi then yaw_err - 2 * Real.pi
    else if yaw_err < -Real.pi then yaw_err + 2 * Real.pi
    else yaw_err
  let r_c := c.Kp_yaw * yaw_err2
  clip r_c 0 (2 * Real.pi)

/-- Modelled from the spec's words (for C2's comparison only): the unique
representative of an angle in the interval `(-π, π]`. -/
noncomputable def wrapToPiSpec (e : ℝ) : ℝ :=
  e - 2 * Real.pi * (⌈e / (2 * Real.pi) - 1 / 2⌉ : ℤ)

/-! ## Basic simp lemmas on the vector types -/

@[simp] theorem Vec3_add_def (a b : Vec3) :
    a + b = ⟨a.x + b.x, a.y + b.y, a.z + b.z⟩ := rfl

@[simp] theorem Vec3_sub_def (a b : Vec3) :
    a - b = ⟨a.x - b.x, a.y - b.y, a.z - b.z⟩ := rfl

@[simp] theorem Vec3_mul_def (a b : Vec3) :
    a * b = ⟨a.x * b.x, a.y * b.y, a.z * b.z⟩ := rfl

@[simp] theorem Vec3_zero_def : (0 : Vec3) = ⟨0, 0, 0⟩ := rfl

@[simp] theorem Vec2_add_def (a b : Vec2) :
    a + b = ⟨a.x + b.x, a.y + b.y⟩ := rfl

@[simp] theorem Vec2_sub_def (a b : Vec2) :
    a - b = ⟨a.x - b.x, a.y - b.y⟩ := rfl

@[simp] theorem Vec2_zero_def : (0 : Vec2) = ⟨0, 0⟩ := rfl

@[simp] theorem Vec3_scale_def (v : Vec3) (s : ℝ) :
    v.scale s = ⟨v.x * s, v.y * s, v.z * s⟩ := rfl

@[simp] theorem Vec3_divScalar_def (v : Vec3) (s : ℝ) :
    v.divScalar s = ⟨v.x / s, v.y / s, v.z / s⟩ := rfl

@[simp] theorem smul2_def (s : ℝ) (v : Vec2) :
    smul2 s v = ⟨s * v.x, s * v.y⟩ := rfl

/-! ## pyGet lemmas -/

theorem pyGet_coe_nat {α : Type} (l : List α) (d : α) (n : ℕ) :
    pyGet l d (n : ℤ) = l.getD n d := by
  simp [pyGet]

theorem pyGet_neg_one {α : Type} (l : List α) (d : α) :
    pyGet l d (-1) = l.getD (l.length - 1) d := by
  have h : ((l.length : ℤ) + -1).toNat = l.length - 1 := by omega
  simp [pyGet, h]

/-! ## argminAbs lemmas -/

theorem argminAbs_lt_length (ts : List ℝ) (ct : ℝ) (h : ts ≠ []) :
    argminAbs ts ct < ts.length := by
  induction ts with
  | nil => exact absurd rfl h
  | cons t rest ih =>
    cases rest with
    | nil => simp [argminAbs]
    | cons w rest' =>
      have hr := ih (by simp)
      simp only [List.length_cons] at hr
      by_cases hc : |(w :: rest').getD (argminAbs (w :: rest') ct) 0 - ct| < |t - ct|
      · simp only [argminAbs, if_pos hc, List.length_cons]
        omega
      · simp only [argminAbs, if_neg hc, List.length_cons]
        omega

theorem argminAbs_min (ts : List ℝ) (ct : ℝ) :
    ∀ j, j < ts.length →
      |ts.getD (argminAbs ts ct) 0 - ct| ≤ |ts.getD j 0 - ct| := by
  induction ts with
  | nil => intro j hj; simp at hj
  | cons t rest ih =>
    cases rest with
    | nil =>
      intro j hj
      have hj0 : j = 0 := by simpa using Nat.lt_one_iff.mp (by simpa using hj)
      subst hj0
      simp [argminAbs]
    | cons w rest' =>
      intro j hj
      by_cases hc : |(w :: rest').getD (argminAbs (w :: rest') ct) 0 - ct| < |t - ct|
      · simp only [argminAbs, if_pos hc]
        cases j with
        | zero =>
          simpa [List.getD_cons_succ, List.getD_cons_zero] using le_of_lt hc
        | succ k =>
          have hk : k < (w :: rest').length := by
            simpa [List.length_cons] using Nat.lt_of_succ_lt_succ hj
          simpa [List.getD_cons_succ] using ih k hk
      · simp only [argminAbs, if_neg hc]
        push_neg at hc
        cases j with
        | zero => simp
        | succ k =>
          have hk : k < (w :: rest').length := by
            simpa [List.length_cons] using Nat.lt_of_succ_lt_succ hj
          calc |(t :: w :: rest').getD 0 0 - ct| = |t - ct| := by simp
            _ ≤ |(w :: rest').getD (argminAbs (w :: rest') ct) 0 - ct| := hc
            _ ≤ |(w :: rest').getD k 0 - ct| := ih k hk
            _ = |(t :: w :: rest').getD (k + 1) 0 - ct| := by
                simp [List.getD_cons_succ]

/-! ## Claim theorems -/

/-- C1: for every input (over the reals — any gains, any commanded and
actual altitude/velocity, any attitude, any feedforward), the thrust
returned by `altitude_control` lies within `[0, MAX_THRUST]`. -/
theorem altitude_control_bounded (c : NonlinearController)
    (altitude_cmd vertical_velocity_cmd altitude vertical_velocity : ℝ)
    (attitude : Vec3) (acceleration_ff : ℝ) :
    0 ≤ altitude_control c altitude_cmd vertical_velocity_cmd altitude
        vertical_velocity attitude acceleration_ff ∧
    altitude_control c altitude_cmd vertical_velocity_cmd altitude
        vertical_velocity attitude acceleration_ff ≤ MAX_THRUST := by
  simp only [altitude_control]
  split_ifs with h1 h2
  · norm_num [MAX_THRUST]
  · norm_num [MAX_THRUST]
  · push_neg at h1 h2
    constructor
    · linarith
    · linarith

/-- C5: whenever `thrust_cmd ≤ 0`, `roll_pitch_controller` returns the
rate command `(0, 0)` regardless of the acceleration command, the
attitude, the gains and the rotation-matrix function. -/
theorem roll_pitch_controller_zero_thrust (c : NonlinearController)
    (euler2RM : ℝ → ℝ → ℝ → (Fin 3 → Fin 3 → ℝ))
    (acceleration_cmd : Vec2) (attitude : Vec3) (thrust_cmd : ℝ)
    (h : thrust_cmd ≤ 0) :
    roll_pitch_controller c euler2RM acceleration_cmd attitude thrust_cmd =
      ⟨0, 0⟩ := by
  simp only [roll_pitch_controller]
  rw [if_neg (not_lt.mpr h)]

/-- Witness for C5 at a concrete input with zero thrust. -/
theorem roll_pitch_controller_zero_thrust_witness :
    (0 : ℝ) ≤ 0 ∧
    roll_pitch_controller defaultCtrl (fun _ _ _ _ _ => 0) ⟨1, 2⟩
      ⟨0.1, 0.2, 0.3⟩ 0 = ⟨0, 0⟩ :=
  ⟨le_refl 0,
   roll_pitch_controller_zero_thrust defaultCtrl (fun _ _ _ _ _ => 0) ⟨1, 2⟩
     ⟨0.1, 0.2, 0.3⟩ 0 (le_refl 0)⟩

/-- C8: `lateral_position_control` returns exactly
`Kp_lateral_pos * (position error) + Kd_lateral_pos * (velocity error) +
feedforward`, with no saturation; in particular it returns the zero
vector when both errors and the feedforward are zero. -/
theorem lateral_position_control_pd (c : NonlinearController)
    (local_position_cmd local_velocity_cmd local_position local_velocity
      acceleration_ff : Vec2) :
    lateral_position_control c local_position_cmd local_velocity_cmd
        local_position local_velocity acceleration_ff =
      smul2 c.Kp_lateral_pos (local_position_cmd - local_position) +
        smul2 c.Kd_lateral_pos (local_velocity_cmd - local_velocity) +
        acceleration_ff ∧
    (local_position_cmd = local_position → local_velocity_cmd = local_velocity →
      acceleration_ff = ⟨0, 0⟩ →
      lateral_position_control c local_position_cmd local_velocity_cmd
        local_position local_velocity acceleration_ff = ⟨0, 0⟩) := by
  refine ⟨rfl, fun hp hv hf => ?_⟩
  subst hp hv hf
  simp [lateral_position_control]

/-- Witness for C8 at a concrete zero-error, zero-feedforward input. -/
theorem lateral_position_control_pd_witness :
    lateral_position_control defaultCtrl ⟨1, 2⟩ ⟨3, 4⟩ ⟨1, 2⟩ ⟨3, 4⟩ ⟨0, 0⟩ =
      ⟨0, 0⟩ :=
  (lateral_position_control_pd defaultCtrl ⟨1, 2⟩ ⟨3, 4⟩ ⟨1, 2⟩ ⟨3, 4⟩
    ⟨0, 0⟩).2 rfl rfl rfl

/-- Euclidean norm of a vector scaled by `s` and divided by `n`
(elementwise), as produced by the saturation branch. -/
theorem norm3_scale_div (v : Vec3) (s n : ℝ) :
    norm3 ((v.scale s).divScalar n) = |s / n| * norm3 v := by
  simp only [Vec3_scale_def, Vec3_divScalar_def, norm3]
  rw [show (v.x * s / n) ^ 2 + (v.y * s / n) ^ 2 + (v.z * s / n) ^ 2 =
      (s / n) ^ 2 * (v.x ^ 2 + v.y ^ 2 + v.z ^ 2) by ring]
  rw [Real.sqrt_mul (sq_nonneg _), Real.sqrt_sq_eq_abs]

/-- C4: the moment vector returned by `body_rate_control` always has
Euclidean norm at most `MAX_TORQUE`; when the unsaturated elementwise
product `m = MOI * ([Kp_p, Kp_q, Kp_r] * (body_rate_cmd - body_rate))`
has norm at most `MAX_TORQUE` the returned vector is exactly `m`, and
otherwise it is `m` rescaled uniformly so that its norm is exactly
`MAX_TORQUE`. -/
theorem body_rate_control_saturation (c : NonlinearController)
    (body_rate_cmd body_rate m : Vec3)
    (hm : m = MOI * ((⟨c.Kp_p, c.Kp_q, c.Kp_r⟩ : Vec3) * (body_rate_cmd - body_rate))) :
    norm3 (body_rate_control c body_rate_cmd body_rate) ≤ MAX_TORQUE ∧
    (norm3 m ≤ MAX_TORQUE → body_rate_control c body_rate_cmd body_rate = m) ∧
    (MAX_TORQUE < norm3 m →
      body_rate_control c body_rate_cmd body_rate =
        (m.scale MAX_TORQUE).divScalar (norm3 m) ∧
      norm3 (body_rate_control c body_rate_cmd body_rate) = MAX_TORQUE) := by
  have hMT : (0 : ℝ) < MAX_TORQUE := by norm_num [MAX_TORQUE]
  simp only [body_rate_control, ← hm]
  by_cases h : norm3 m > MAX_TORQUE
  · rw [if_pos h]
    have hn : (0 : ℝ) < norm3 m := lt_trans hMT h
    have hnorm : norm3 ((m.scale MAX_TORQUE).divScalar (norm3 m)) = MAX_TORQUE := by
      rw [norm3_scale_div]
      rw [abs_of_nonneg (div_nonneg (le_of_lt hMT) (le_of_lt hn))]
      rw [div_mul_cancel₀ _ (ne_of_gt hn)]
    refine ⟨le_of_eq hnorm, fun hle => absurd h (not_lt.mpr hle), fun _ => ⟨rfl, hnorm⟩⟩
  · rw [if_neg h]
    push_neg at h
    exact ⟨h, fun _ => rfl, fun hgt => absurd hgt (not_lt.mpr h)⟩

/-- Witness for C4 at a concrete input with zero rate error (the
unsaturated product is the zero vector, whose norm is below the bound). -/
theorem body_rate_control_saturation_witness :
    norm3 (⟨0, 0, 0⟩ : Vec3) ≤ MAX_TORQUE ∧
    body_rate_control defaultCtrl ⟨1, 2, 3⟩ ⟨1, 2, 3⟩ = ⟨0, 0, 0⟩ := by
  have hm : (⟨0, 0, 0⟩ : Vec3) = MOI *
      ((⟨defaultCtrl.Kp_p, defaultCtrl.Kp_q, defaultCtrl.Kp_r⟩ : Vec3) *
        ((⟨1, 2, 3⟩ : Vec3) - ⟨1, 2, 3⟩)) := by
    simp [MOI]
  have hn : norm3 (⟨0, 0, 0⟩ : Vec3) ≤ MAX_TORQUE := by
    have hz : norm3 (⟨0, 0, 0⟩ : Vec3) = 0 := by simp [norm3]
    rw [hz]
    norm_num [MAX_TORQUE]
  exact ⟨hn, (body_rate_control_saturation defaultCtrl ⟨1, 2, 3⟩ ⟨1, 2, 3⟩
    ⟨0, 0, 0⟩ hm).2.1 hn⟩

/-! ## Yaw wrapping lemmas (C2) -/

/-- `wrapToPiSpec` really lands in the interval `(-π, π]` described by the
spec, for every input angle. -/
theorem wrapToPiSpec_mem (e : ℝ) :
    -Real.pi < wrapToPiSpec e ∧ wrapToPiSpec e ≤ Real.pi := by
  have h2pi : (0 : ℝ) < 2 * Real.pi := by positivity
  have hx : 2 * Real.pi * (e / (2 * Real.pi) - 1 / 2) = e - Real.pi := by
    field_simp
    ring
  constructor
  · have h := Int.ceil_lt_add_one (e / (2 * Real.pi) - 1 / 2)
    have h' := (mul_lt_mul_left h2pi).mpr h
    simp only [wrapToPiSpec]
    nlinarith [h', hx]
  · have h := Int.le_ceil (e / (2 * Real.pi) - 1 / 2)
    have h' := (mul_le_mul_left h2pi).mpr h
    simp only [wrapToPiSpec]
    nlinarith [h', hx]

/-- For raw errors in `(-3π, 3π]` other than `-π`, the spec's wrap into
`(-π, π]` coincides with the single conditional ±2π adjustment performed
by `yaw_control`. -/
theorem wrapToPiSpec_eq_single (e : ℝ) (h1 : -(3 * Real.pi) < e)
    (h2 : e ≤ 3 * Real.pi) (h3 : e ≠ -Real.pi) :
    wrapToPiSpec e =
      if e > Real.pi then e - 2 * Real.pi
      else if e < -Real.pi then e + 2 * Real.pi
      else e := by
  have h2pi : (0 : ℝ) < 2 * Real.pi := by positivity
  by_cases hgt : e > Real.pi
  · have hceil : ⌈e / (2 * Real.pi) - 1 / 2⌉ = (1 : ℤ) := by
      rw [Int.ceil_eq_iff]
      constructor
      · push_cast
        rw [show (1 : ℝ) - 1 = 0 by norm_num, sub_pos, lt_div_iff h2pi]
        nlinarith
      · push_cast
        rw [sub_le_iff_le_add, div_le_iff h2pi]
        nlinarith
    rw [if_pos hgt]
    simp only [wrapToPiSpec, hceil]
    push_cast
    ring
  · rw [if_neg hgt]
    push_neg at hgt
    by_cases hlt : e < -Real.pi
    · have hceil : ⌈e / (2 * Real.pi) - 1 / 2⌉ = (-1 : ℤ) := by
        rw [Int.ceil_eq_iff]
        constructor
        · push_cast
          rw [show (-1 : ℝ) - 1 = -2 by norm_num, lt_sub_iff_add_lt, lt_div_iff h2pi]
          nlinarith
        · push_cast
          rw [sub_le_iff_le_add, div_le_iff h2pi]
          nlinarith
      rw [if_pos hlt]
      simp only [wrapToPiSpec, hceil]
      push_cast
      ring
    · have hge : -Real.pi < e := lt_of_le_of_ne (not_lt.mp hlt) (Ne.symm h3)
      have hceil : ⌈e / (2 * Real.pi) - 1 / 2⌉ = (0 : ℤ) := by
        rw [Int.ceil_eq_iff]
        constructor
        · push_cast
          rw [show (0 : ℝ) - 1 = -1 by norm_num, lt_sub_iff_add_lt, lt_div_iff h2pi]
          nlinarith
        · push_cast
          rw [sub_nonpos, div_le_iff h2pi]
          nlinarith
      rw [if_neg hlt]
      simp only [wrapToPiSpec, hceil]
      push_cast
      ring

/-- C2 (amended): for raw yaw errors in `(-3π, 3π]` other than `-π`,
`yaw_control` returns `Kp_yaw` times the yaw error wrapped into
`(-π, π]`, clamped into `[0, 2π]`.  (Outside that range the code's single
±2π adjustment does not reach `(-π, π]`; see the counterexample.) -/
theorem yaw_control_singlewrap (c : NonlinearController) (yaw_cmd yaw : ℝ)
    (h1 : -(3 * Real.pi) < yaw_cmd - yaw) (h2 : yaw_cmd - yaw ≤ 3 * Real.pi)
    (h3 : yaw_cmd - yaw ≠ -Real.pi) :
    yaw_control c yaw_cmd yaw =
      clip (c.Kp_yaw * wrapToPiSpec (yaw_cmd - yaw)) 0 (2 * Real.pi) := by
  simp only [yaw_control]
  rw [wrapToPiSpec_eq_single _ h1 h2 h3]

/-- Witness for C2 (amended) at the spec's first example
`yaw_cmd = 0.1, yaw = 0`. -/
theorem yaw_control_singlewrap_witness :
    (-(3 * Real.pi) < (0.1 : ℝ) - 0 ∧ (0.1 : ℝ) - 0 ≤ 3 * Real.pi ∧
      (0.1 : ℝ) - 0 ≠ -Real.pi) ∧
    yaw_control defaultCtrl 0.1 0 =
      clip (defaultCtrl.Kp_yaw * wrapToPiSpec ((0.1 : ℝ) - 0)) 0 (2 * Real.pi) := by
  have hp := Real.pi_gt_three
  refine ⟨⟨by nlinarith, by nlinarith, fun hq => by nlinarith⟩,
    yaw_control_singlewrap defaultCtrl 0.1 0 (by nlinarith) (by nlinarith)
      (fun hq => by nlinarith)⟩

/-- C2 (counterexample): at `yaw_cmd = 10, yaw = 0` the raw error `10`
exceeds `3π`, the single subtraction of `2π` leaves `10 - 2π > π`, and
`yaw_control` returns `2π`, whereas `Kp_yaw` times the error wrapped into
`(-π, π]` (which is `10 - 4π < 0`), clamped into `[0, 2π]`, is `0`. -/
theorem yaw_control_spec_wrap_cex :
    yaw_control defaultCtrl 10 0 ≠
      clip (defaultCtrl.Kp_yaw * wrapToPiSpec ((10 : ℝ) - 0)) 0 (2 * Real.pi) := by
  have hp1 := Real.pi_gt_3141592
  have hp2 := Real.pi_lt_315
  have h2pi : (0 : ℝ) < 2 * Real.pi := by positivity
  have hKp : defaultCtrl.Kp_yaw = 4.5 := rfl
  have hL : yaw_control defaultCtrl 10 0 = 2 * Real.pi := by
    simp only [yaw_control]
    rw [if_pos (by nlinarith : (10 : ℝ) - 0 > Real.pi)]
    rw [hKp]
    simp only [clip]
    rw [max_eq_left (by nlinarith : (0 : ℝ) ≤ 4.5 * ((10 : ℝ) - 0 - 2 * Real.pi))]
    rw [min_eq_right (by nlinarith : 2 * Real.pi ≤ 4.5 * ((10 : ℝ) - 0 - 2 * Real.pi))]
  have h10 : (10 : ℝ) - 0 = 10 := by norm_num
  have hceil : ⌈(10 : ℝ) / (2 * Real.pi) - 1 / 2⌉ = (2 : ℤ) := by
    rw [Int.ceil_eq_iff]
    constructor
    · push_cast
      rw [lt_sub_iff_add_lt, lt_div_iff h2pi]
      nlinarith
    · push_cast
      rw [sub_le_iff_le_add, div_le_iff h2pi]
      nlinarith
  have hw : wrapToPiSpec (10 : ℝ) = 10 - 4 * Real.pi := by
    simp only [wrapToPiSpec, hceil]
    push_cast
    ring
  have hR : clip (defaultCtrl.Kp_yaw * wrapToPiSpec ((10 : ℝ) - 0)) 0 (2 * Real.pi) = 0 := by
    rw [h10, hw, hKp]
    simp only [clip]
    rw [max_eq_right (by nlinarith : (4.5 : ℝ) * (10 - 4 * Real.pi) ≤ 0)]
    rw [min_eq_left (le_of_lt h2pi)]
  rw [hL, hR]
  exact ne_of_gt h2pi

/-! ## Trajectory-sampler lemmas -/

theorem pyGet_zero {α : Type} (l : List α) (d : α) : pyGet l d 0 = l.getD 0 d := by
  simp [pyGet]

theorem pyGet_one {α : Type} (l : List α) (d : α) : pyGet l d 1 = l.getD 1 d := by
  simp [pyGet]

theorem getD_eq_of_lt {α : Type} (l : List α) (d : α) {n : ℕ} (h : n < l.length) :
    l.getD n d = l[n] := by
  simp [List.getD_eq_getElem?_getD, List.getElem?_eq_getElem h]

/-- C3 (code evaluation at the failing input): for the single-sample
trajectory `position=[(1,2,3)], yaw=[0.5], time=[2]` queried at
`current_time = 1 < 2`, the sampler's backward branch selects
`time0 = time1 = 2` (index `-1` wraps to the only sample), so the code
divides by `time1 - time0 = 0`: in numpy this makes `position_cmd` and
`velocity_cmd` NaN instead of the held sample position. -/
theorem trajSelect_single_sample_divzero :
    (trajSelect [(⟨1, 2, 3⟩ : Vec3)] [0.5] [2] 1).time1 -
      (trajSelect [(⟨1, 2, 3⟩ : Vec3)] [0.5] [2] 1).time0 = 0 := by
  have ha : argminAbs [(2 : ℝ)] 1 = 0 := rfl
  simp only [trajSelect, ha, Nat.cast_zero, zero_sub, pyGet_zero, pyGet_neg_one]
  rw [if_pos (by norm_num : (1 : ℝ) < [(2 : ℝ)].getD 0 0)]
  norm_num

/-- C9: when the nearest-time index is `0` and `current_time` is strictly
before the first sample's time, `trajectory_control` interpolates the
segment whose earlier endpoint is the LAST sample (Python index `-1`
wraps around) and whose later endpoint is the first sample, and takes the
LAST sample's yaw — there is no clamp to index `0`. -/
theorem trajectory_control_backward_wrap (position_trajectory : List Vec3)
    (yaw_trajectory time_trajectory : List ℝ) (current_time : ℝ)
    (hlen : 2 ≤ position_trajectory.length)
    (ha : argminAbs time_trajectory current_time = 0)
    (hct : current_time < time_trajectory.getD 0 0) :
    trajectory_control position_trajectory yaw_trajectory time_trajectory current_time =
      (((position_trajectory.getD 0 0 -
            position_trajectory.getD (position_trajectory.length - 1) 0).scale
          (current_time - time_trajectory.getD (time_trajectory.length - 1) 0)).divScalar
            (time_trajectory.getD 0 0 -
              time_trajectory.getD (time_trajectory.length - 1) 0) +
        position_trajectory.getD (position_trajectory.length - 1) 0,
       (position_trajectory.getD 0 0 -
            position_trajectory.getD (position_trajectory.length - 1) 0).divScalar
          (time_trajectory.getD 0 0 -
            time_trajectory.getD (time_trajectory.length - 1) 0),
       yaw_trajectory.getD (yaw_trajectory.length - 1) 0) := by
  simp only [trajectory_control, trajSelect, ha, Nat.cast_zero, zero_sub,
    pyGet_zero, pyGet_neg_one]
  rw [if_pos hct]

/-- Witness for C9 at the two-sample trajectory `times = [5, 6]` queried
at `current_time = 0` (nearest index is `0` and `0 < 5`). -/
theorem trajectory_control_backward_wrap_witness :
    argminAbs [(5 : ℝ), 6] 0 = 0 ∧ (0 : ℝ) < [(5 : ℝ), 6].getD 0 0 ∧
    trajectory_control [(⟨1, 1, 1⟩ : Vec3), ⟨3, 3, 3⟩] [0.25, 0.5] [5, 6] 0 =
      (⟨-9, -9, -9⟩, ⟨2, 2, 2⟩, 0.5) := by
  have e1 : |(6 : ℝ) - 0| = 6 := by
    rw [show (6 : ℝ) - 0 = 6 by norm_num, abs_of_nonneg (by norm_num : (0 : ℝ) ≤ 6)]
  have e2 : |(5 : ℝ) - 0| = 5 := by
    rw [show (5 : ℝ) - 0 = 5 by norm_num, abs_of_nonneg (by norm_num : (0 : ℝ) ≤ 5)]
  have ha : argminAbs [(5 : ℝ), 6] 0 = 0 := by
    simp only [argminAbs, List.getD_cons_zero, e1, e2]
    norm_num
  have hct : (0 : ℝ) < [(5 : ℝ), 6].getD 0 0 := by norm_num
  refine ⟨ha, hct, ?_⟩
  have h := trajectory_control_backward_wrap [(⟨1, 1, 1⟩ : Vec3), ⟨3, 3, 3⟩]
    [0.25, 0.5] [5, 6] 0 (by norm_num) ha hct
  rw [h]
  simp only [List.length_cons, List.length_nil, List.getD_cons_zero,
    List.getD_cons_succ, Vec3_sub_def, Vec3_scale_def, Vec3_divScalar_def,
    Vec3_add_def, Prod.mk.injEq, Vec3.mk.injEq]
  norm_num

/-- C6: for the two-sample trajectory `(pos=[0,0,0], yaw=0, t=0)`,
`(pos=[10,0,-5], yaw=0, t=5)` queried at `current_time = 2.5`,
`trajectory_control` returns `position_cmd = [5, 0, -2.5]`,
`velocity_cmd = [2, 0, -1]` and `yaw_cmd = 0`. -/
theorem trajectory_control_midpoint :
    trajectory_control [(⟨0, 0, 0⟩ : Vec3), ⟨10, 0, -5⟩] [0, 0] [0, 5] 2.5 =
      (⟨5, 0, -2.5⟩, ⟨2, 0, -1⟩, 0) := by
  have e1 : |(5 : ℝ) - 2.5| = 2.5 := by
    rw [show (5 : ℝ) - 2.5 = 2.5 by norm_num,
      abs_of_nonneg (by norm_num : (0 : ℝ) ≤ 2.5)]
  have e2 : |(0 : ℝ) - 2.5| = 2.5 := by
    rw [show (0 : ℝ) - 2.5 = -2.5 by norm_num, abs_neg,
      abs_of_nonneg (by norm_num : (0 : ℝ) ≤ 2.5)]
  have ha : argminAbs [(0 : ℝ), 5] 2.5 = 0 := by
    simp only [argminAbs, List.getD_cons_zero, e1, e2]
    norm_num
  simp only [trajectory_control, trajSelect, ha, Nat.cast_zero, zero_sub,
    zero_add, pyGet_zero, pyGet_one, pyGet_neg_one]
  rw [if_neg (by norm_num : ¬((2.5 : ℝ) < [(0 : ℝ), 5].getD 0 0))]
  rw [if_neg (by norm_num :
    ¬((0 : ℤ) ≥ (([(⟨0, 0, 0⟩ : Vec3), ⟨10, 0, -5⟩].length : ℕ) : ℤ) - 1))]
  simp only [List.getD_cons_zero, List.getD_cons_succ, Vec3_sub_def,
    Vec3_scale_def, Vec3_divScalar_def, Vec3_add_def, Prod.mk.injEq,
    Vec3.mk.injEq]
  norm_num

/-- C10: for strictly increasing sample times and every query time at or
after the last sample's time, `trajectory_control` returns the last
sample's position, the zero vector as `velocity_cmd` (unconditionally:
the hold branch divides the zero position difference by the fixed
duration 1), and the last sample's yaw. -/
theorem trajectory_control_past_end_hold (position_trajectory : List Vec3)
    (yaw_trajectory time_trajectory : List ℝ) (current_time : ℝ)
    (hne : time_trajectory ≠ [])
    (hp : position_trajectory.length = time_trajectory.length)
    (hy : yaw_trajectory.length = time_trajectory.length)
    (hs : time_trajectory.Sorted (· < ·))
    (hct : time_trajectory.getD (time_trajectory.length - 1) 0 ≤ current_time) :
    trajectory_control position_trajectory yaw_trajectory time_trajectory
        current_time =
      (position_trajectory.getD (position_trajectory.length - 1) 0, 0,
       yaw_trajectory.getD (yaw_trajectory.length - 1) 0) := by
  have hL : 0 < time_trajectory.length := List.length_pos.mpr hne
  have halt := argminAbs_lt_length time_trajectory current_time hne
  have hlast_lt : time_trajectory.length - 1 < time_trajectory.length := by omega
  have hgetA : time_trajectory.getD (argminAbs time_trajectory current_time) 0 =
      time_trajectory[argminAbs time_trajectory current_time] :=
    getD_eq_of_lt _ _ halt
  have hgetL : time_trajectory.getD (time_trajectory.length - 1) 0 =
      time_trajectory[time_trajectory.length - 1] := getD_eq_of_lt _ _ hlast_lt
  have hpair := List.pairwise_iff_getElem.mp hs
  have hle : time_trajectory.getD (argminAbs time_trajectory current_time) 0 ≤
      time_trajectory.getD (time_trajectory.length - 1) 0 := by
    rcases Nat.lt_or_ge (argminAbs time_trajectory current_time)
        (time_trajectory.length - 1) with h | h
    · rw [hgetA, hgetL]
      exact le_of_lt (hpair _ _ halt hlast_lt h)
    · have heq : argminAbs time_trajectory current_time =
          time_trajectory.length - 1 := by omega
      rw [heq]
  have hmin := argminAbs_min time_trajectory current_time
    (time_trajectory.length - 1) hlast_lt
  have hctA : time_trajectory.getD (argminAbs time_trajectory current_time) 0 ≤
      current_time := le_trans hle hct
  have habsA : |time_trajectory.getD (argminAbs time_trajectory current_time) 0 -
      current_time| =
      current_time -
        time_trajectory.getD (argminAbs time_trajectory current_time) 0 := by
    rw [abs_of_nonpos (by linarith), neg_sub]
  have habsL : |time_trajectory.getD (time_trajectory.length - 1) 0 -
      current_time| =
      current_time - time_trajectory.getD (time_trajectory.length - 1) 0 := by
    have := hct
    rw [abs_of_nonpos (by linarith), neg_sub]
  rw [habsA, habsL] at hmin
  have hge : time_trajectory.getD (time_trajectory.length - 1) 0 ≤
      time_trajectory.getD (argminAbs time_trajectory current_time) 0 := by
    linarith
  have haEq : argminAbs time_trajectory current_time =
      time_trajectory.length - 1 := by
    by_contra hne2
    have hlt : argminAbs time_trajectory current_time <
        time_trajectory.length - 1 := by omega
    have hstrict := hpair _ _ halt hlast_lt hlt
    rw [← hgetA, ← hgetL] at hstrict
    linarith
  simp only [trajectory_control, trajSelect, haEq, pyGet_coe_nat]
  rw [if_neg (not_lt.mpr hct)]
  rw [if_pos (show ((time_trajectory.length - 1 : ℕ) : ℤ) ≥
    (position_trajectory.length : ℤ) - 1 by rw [hp]; omega)]
  simp only [hp, hy, Prod.mk.injEq]
  refine ⟨?_, ?_, trivial⟩
  · simp [Vec3_sub_def, Vec3_scale_def, Vec3_divScalar_def, Vec3_add_def]
  · simp [Vec3_sub_def, Vec3_divScalar_def, Vec3_zero_def]

/-- Witness for C10 at the trajectory `times = [1, 3]` queried at
`current_time = 10`. -/
theorem trajectory_control_past_end_hold_witness :
    List.Sorted (· < ·) [(1 : ℝ), 3] ∧
    [(1 : ℝ), 3].getD ([(1 : ℝ), 3].length - 1) 0 ≤ 10 ∧
    trajectory_control [(⟨1, 2, 3⟩ : Vec3), ⟨4, 5, 6⟩] [0.2, 0.7] [1, 3] 10 =
      (⟨4, 5, 6⟩, 0, 0.7) := by
  have hs : List.Sorted (· < ·) [(1 : ℝ), 3] := by
    norm_num [List.sorted_cons]
  have hct : [(1 : ℝ), 3].getD ([(1 : ℝ), 3].length - 1) 0 ≤ 10 := by norm_num
  refine ⟨hs, hct, ?_⟩
  have h := trajectory_control_past_end_hold [(⟨1, 2, 3⟩ : Vec3), ⟨4, 5, 6⟩]
    [0.2, 0.7] [1, 3] 10 (by simp) rfl rfl hs hct
  rw [h]
  norm_num

/-- C7 (counterexample): with non-decreasing but duplicated times
`[0, 0]` (yaws `[0, 1]`), querying at `current_time = 0`, which is the
time of sample `i = 1`, does NOT return sample 1's yaw: `np.argmin`
resolves the tie to the first index, so the code returns `yaw_cmd = 0`
instead of `1`. -/
theorem trajectory_control_dup_time_cex :
    (trajectory_control [(⟨0, 0, 0⟩ : Vec3), ⟨1, 1, 1⟩] [0, 1] [0, 0] 0).2.2 = 0 ∧
    (0 : ℝ) ≠ 1 := by
  constructor
  · have ha : argminAbs [(0 : ℝ), 0] 0 = 0 := by
      simp only [argminAbs, List.getD_cons_zero]
      norm_num
    simp only [trajectory_control, trajSelect, ha, Nat.cast_zero, zero_sub,
      zero_add, pyGet_zero, pyGet_one, pyGet_neg_one]
    rw [if_neg (by norm_num : ¬((0 : ℝ) < [(0 : ℝ), 0].getD 0 0))]
    rw [if_neg (by norm_num :
      ¬((0 : ℤ) ≥ (([(⟨0, 0, 0⟩ : Vec3), ⟨1, 1, 1⟩].length : ℕ) : ℤ) - 1))]
    norm_num
  · norm_num

theorem pyGet_coe_add_one {α : Type} (l : List α) (d : α) (n : ℕ) :
    pyGet l d ((n : ℤ) + 1) = l.getD (n + 1) d := by
  have h : ((n : ℤ) + 1) = ((n + 1 : ℕ) : ℤ) := by push_cast; ring
  rw [h, pyGet_coe_nat]

/-- C7 (amended): for strictly increasing sample times (equal-length
position/yaw/time lists), querying `trajectory_control` exactly at the
`i`-th sample's time returns exactly the `i`-th sample's position as
`position_cmd` and the `i`-th sample's yaw as `yaw_cmd`. -/
theorem trajectory_control_exact_sample (position_trajectory : List Vec3)
    (yaw_trajectory time_trajectory : List ℝ) (i : ℕ)
    (hp : position_trajectory.length = time_trajectory.length)
    (hs : time_trajectory.Sorted (· < ·))
    (hi : i < time_trajectory.length) :
    (trajectory_control position_trajectory yaw_trajectory time_trajectory
        (time_trajectory.getD i 0)).1 = position_trajectory.getD i 0 ∧
    (trajectory_control position_trajectory yaw_trajectory time_trajectory
        (time_trajectory.getD i 0)).2.2 = yaw_trajectory.getD i 0 := by
  have hne : time_trajectory ≠ [] := by
    intro h
    rw [h] at hi
    simp at hi
  have halt := argminAbs_lt_length time_trajectory (time_trajectory.getD i 0) hne
  have hmin := argminAbs_min time_trajectory (time_trajectory.getD i 0) i hi
  have heq : time_trajectory.getD
      (argminAbs time_trajectory (time_trajectory.getD i 0)) 0 =
      time_trajectory.getD i 0 := by
    have h1 := abs_nonneg (time_trajectory.getD
      (argminAbs time_trajectory (time_trajectory.getD i 0)) 0 -
        time_trajectory.getD i 0)
    have h2 : |time_trajectory.getD
        (argminAbs time_trajectory (time_trajectory.getD i 0)) 0 -
          time_trajectory.getD i 0| = 0 :=
      le_antisymm (by simpa using hmin) h1
    have h3 := abs_eq_zero.mp h2
    linarith
  have hpair := List.pairwise_iff_getElem.mp hs
  have haEq : argminAbs time_trajectory (time_trajectory.getD i 0) = i := by
    by_contra hne2
    rcases Nat.lt_or_ge (argminAbs time_trajectory (time_trajectory.getD i 0))
        i with h | h
    · have hstrict := hpair _ _ halt hi h
      rw [← getD_eq_of_lt _ (0 : ℝ) halt, ← getD_eq_of_lt _ (0 : ℝ) hi] at hstrict
      linarith
    · have h' : i < argminAbs time_trajectory (time_trajectory.getD i 0) :=
        lt_of_le_of_ne h (Ne.symm hne2)
      have hstrict := hpair _ _ hi halt h'
      rw [← getD_eq_of_lt _ (0 : ℝ) halt, ← getD_eq_of_lt _ (0 : ℝ) hi] at hstrict
      linarith
  simp only [trajectory_control, trajSelect, haEq, pyGet_coe_nat,
    pyGet_coe_add_one]
  rw [if_neg (lt_irrefl _)]
  by_cases hcase : ((i : ℤ) ≥ (position_trajectory.length : ℤ) - 1)
  · rw [if_pos hcase]
    constructor
    · simp [Vec3_sub_def, Vec3_scale_def, Vec3_divScalar_def, Vec3_add_def]
    · rfl
  · rw [if_neg hcase]
    constructor
    · simp [Vec3_sub_def, Vec3_scale_def, Vec3_divScalar_def, Vec3_add_def]
    · rfl

/-- Witness for C7 (amended) at the trajectory `times = [0, 5]`,
`yaws = [0.3, 0.6]` queried at sample index `i = 1`. -/
theorem trajectory_control_exact_sample_witness :
    List.Sorted (· < ·) [(0 : ℝ), 5] ∧ 1 < [(0 : ℝ), 5].length ∧
    (trajectory_control [(⟨0, 0, 0⟩ : Vec3), ⟨1, 1, 1⟩] [0.3, 0.6] [0, 5]
        ([(0 : ℝ), 5].getD 1 0)).1 = ⟨1, 1, 1⟩ ∧
    (trajectory_control [(⟨0, 0, 0⟩ : Vec3), ⟨1, 1, 1⟩] [0.3, 0.6] [0, 5]
        ([(0 : ℝ), 5].getD 1 0)).2.2 = 0.6 := by
  have hs : List.Sorted (· < ·) [(0 : ℝ), 5] := by
    norm_num [List.sorted_cons]
  have hi : 1 < [(0 : ℝ), 5].length := by norm_num
  have h := trajectory_control_exact_sample [(⟨0, 0, 0⟩ : Vec3), ⟨1, 1, 1⟩]
    [0.3, 0.6] [0, 5] 1 rfl hs hi
  refine ⟨hs, hi, ?_, ?_⟩
  · rw [h.1]
    norm_num
  · rw [h.2]
    norm_num
